import Mathlib

/-!
Verification of the Replaceroo string-replacement engine.

The development shallowly embeds the core of `replaceroo/replaceroo.py`:

* `pyCount` / `pyReplace` embed Python's `str.count` and three-argument
  `str.replace` (non-overlapping, left-to-right, with the empty-pattern
  gap semantics);
* `replaceLoop` and `replace_strings` embed the `replace_strings`
  function (the substitution engine), including the stable ascending
  sort of the per-term detail records and the summary dictionary;
* `buildReplacementList` embeds the replacement-list derivation inside
  `get_user_input` (the replacement plan builder).

Definitions whose names start with `spec...` restate the documented
behaviour in independent small pieces; refinement theorems relate them
to the embedded code.
-/

/-- Boolean test that `p` is a prefix of the second list (character match). -/
def isPrefixChars : List Char → List Char → Bool
  | [], _ => true
  | _ :: _, [] => false
  | p :: ps, c :: cs => p == c && isPrefixChars ps cs

/-- Fuel-indexed scan counting non-overlapping occurrences of the nonempty
pattern `pat`, left to right, greedily — the semantics of Python's
`str.count` for a nonempty argument.  With `fuel = hay.length` the fuel
never runs out, since every step consumes at least one character. -/
def pyCountAux (pat : List Char) : Nat → List Char → Nat
  | _, [] => 0
  | 0, _ :: _ => 0
  | fuel + 1, c :: rest =>
    if isPrefixChars pat (c :: rest) then
      1 + pyCountAux pat fuel (List.drop (pat.length - 1) rest)
    else
      pyCountAux pat fuel rest

/-- Python's `text.count(pat)`: the number of non-overlapping occurrences of
`pat` in `text`, scanning left to right; an empty pattern matches at every
gap, giving `text.length + 1`. -/
def pyCount (text pat : String) : Nat :=
  if pat.data = [] then text.data.length + 1
  else pyCountAux pat.data text.data.length text.data

/-- Fuel-indexed rewriting of at most `n` non-overlapping occurrences of
`pat` by `rep`, left to right — the semantics of Python's
`str.replace(pat, rep, n)` for `n ≥ 0`.  An empty pattern inserts `rep`
at each gap (including the final gap).  With `fuel = hay.length + 1`
the fuel never runs out. -/
def pyReplaceAux (pat rep : List Char) : Nat → Nat → List Char → List Char
  | _, 0, hay => hay
  | 0, _ + 1, hay => hay
  | _ + 1, _ + 1, [] => if pat = [] then rep else []
  | fuel + 1, n + 1, c :: rest =>
    if pat = [] then rep ++ c :: pyReplaceAux pat rep fuel n rest
    else if isPrefixChars pat (c :: rest) then
      rep ++ pyReplaceAux pat rep fuel n (List.drop (pat.length - 1) rest)
    else
      c :: pyReplaceAux pat rep fuel (n + 1) rest

/-- Python's `text.replace(old, new, n)`. -/
def pyReplace (text old new : String) (n : Nat) : String :=
  ⟨pyReplaceAux old.data new.data (text.data.length + 1) n text.data⟩

/-- One per-term replacement record, mirroring the `detail` dictionary built
in `replace_strings` (keys "Original String", "Full Search String",
"New String", "Full Replace", "Instances"). -/
structure Detail where
  original_string : String
  full_search_string : String
  new_string : String
  full_replace : String
  instances : Nat
deriving DecidableEq

/-- The summary dictionary built in `replace_strings` (keys
"Searched for Strings", "Strings Found", "Strings Not Found",
"Total Replaced", "Multiple Instances"). -/
structure Summary where
  searched : Nat
  found : Nat
  not_found : Nat
  total_replaced : Nat
  multiple_instances : Nat
deriving DecidableEq

/-- The `for from_string, to_string in zip(from_list, to_list)` loop of
`replace_strings`: threads the text, the running replaced count and the
detail list through the paired terms, exactly as the source does
(`replace_from = prefix + from_string + suffix`, count and replace,
append one detail per term). -/
def replaceLoop (sp ss : String) : String → List (String × String) → String × Nat × List Detail
  | text, [] => (text, 0, [])
  | text, (from_string, to_string) :: rest =>
    let replace_from := sp ++ from_string ++ ss
    let replace_to := sp ++ to_string ++ ss
    let instances := pyCount text replace_from
    let text1 := if 0 < instances then pyReplace text replace_from replace_to instances else text
    let tail := replaceLoop sp ss text1 rest
    (tail.1,
     (if 0 < instances then instances else 0) + tail.2.1,
     { original_string := from_string
       full_search_string := replace_from
       new_string := to_string
       full_replace := replace_to
       instances := instances } :: tail.2.2)

/-- Insert a detail into a list, before the first entry whose instance count
is at least as large.  Folding this over the list from the right yields a
stable ascending sort by instance count. -/
def insertDetail (d : Detail) : List Detail → List Detail
  | [] => [d]
  | e :: rest => if d.instances ≤ e.instances then d :: e :: rest else e :: insertDetail d rest

/-- Stable sort of the detail list, ascending by instance count — the
meaning of `sorted(details, key=lambda k: k['Instances'])` in the source
(Python's `sorted` is a stable ascending sort by the key). -/
def sortDetails : List Detail → List Detail
  | [] => []
  | d :: rest => insertDetail d (sortDetails rest)

/-- The substitution engine `replace_strings(text, from_list, to_list,
prefix, suffix)`: runs the replacement loop over the zipped term lists,
sorts the detail records ascending by instances, and assembles the summary
(the `index` counter of the source equals the number of loop iterations,
i.e. the length of the zipped list). -/
def replace_strings (text : String) (from_list to_list : List String)
    (sp ss : String) : String × Summary × List Detail :=
  let result := replaceLoop sp ss text (from_list.zip to_list)
  let details := sortDetails result.2.2
  (result.1,
   { searched := (from_list.zip to_list).length
     found := details.countP (fun d => decide (0 < d.instances))
     not_found := details.countP (fun d => d.instances == 0)
     total_replaced := result.2.1
     multiple_instances := details.countP (fun d => decide (1 < d.instances)) },
   details)

/-- Spec-side: the fully-scoped search or replacement string,
`scopePrefix + term + scopeSuffix`. -/
def specFullSearch (sp term ss : String) : String := sp ++ term ++ ss

/-- Spec-side: the document after processing one (search, replacement)
pair — count the non-overlapping occurrences of the fully-scoped search
string in the current document; if positive, replace them all with the
fully-scoped replacement string, otherwise leave the document unchanged. -/
def specStepDoc (sp ss doc : String) (pr : String × String) : String :=
  let n := pyCount doc (specFullSearch sp pr.1 ss)
  if 0 < n then
    pyReplace doc (specFullSearch sp pr.1 ss) (specFullSearch sp pr.2 ss) n
  else doc

/-- Spec-side: the record emitted for one pair — the original term, its
fully-scoped search string, the replacement term, its fully-scoped
replacement string, and the occurrence count in the current document. -/
def specRecord (sp ss doc : String) (pr : String × String) : Detail :=
  { original_string := pr.1
    full_search_string := specFullSearch sp pr.1 ss
    new_string := pr.2
    full_replace := specFullSearch sp pr.2 ss
    instances := pyCount doc (specFullSearch sp pr.1 ss) }

/-- Spec-side: the records emitted over the pair list in order, one per
pair whether found or not, each evaluated against the document state left
by the earlier pairs. -/
def specRecords (sp ss : String) : String → List (String × String) → List Detail
  | _, [] => []
  | doc, pr :: rest => specRecord sp ss doc pr :: specRecords sp ss (specStepDoc sp ss doc pr) rest

/-- Spec-side: the final document after processing all pairs in order. -/
def specFinalDoc (sp ss : String) : String → List (String × String) → String
  | doc, [] => doc
  | doc, pr :: rest => specFinalDoc sp ss (specStepDoc sp ss doc pr) rest

/-- The seven replacement methods offered by `get_user_input`
(`replace_methods` keys "l", "p", "s", "lp", "ls", "ps", "lps"). -/
inductive ReplaceMethod
  | l | p | s | lp | ls | ps | lps
deriving DecidableEq

/-- The key string of a method, as entered by the user. -/
def methodKey : ReplaceMethod → String
  | .l => "l" | .p => "p" | .s => "s"
  | .lp => "lp" | .ls => "ls" | .ps => "ps" | .lps => "lps"

/-- Truthiness of `method.count('l')` in the source. -/
def methodHasL (m : ReplaceMethod) : Bool := decide (0 < pyCount (methodKey m) "l")

/-- Truthiness of `method.count('p')` in the source. -/
def methodHasP (m : ReplaceMethod) : Bool := decide (0 < pyCount (methodKey m) "p")

/-- Truthiness of `method.count('s')` in the source. -/
def methodHasS (m : ReplaceMethod) : Bool := decide (0 < pyCount (methodKey m) "s")

/-- The replacement-list derivation in `get_user_input`: `temp_list` is the
'to' list when the method includes the list variant and the 'from' list
otherwise; `to_prefix`/`to_suffix` keep their empty initialisation unless
the method selects them; the final list is
`[to_prefix + fromStr + to_suffix for fromStr in temp_list]`. -/
def buildReplacementList (m : ReplaceMethod) (from_list to_list : List String)
    (userPre userSuf : String) : List String :=
  let temp_list := if methodHasL m then to_list else from_list
  let to_pre := if methodHasP m then userPre else ""
  let to_suf := if methodHasS m then userSuf else ""
  temp_list.map (fun fromStr => to_pre ++ fromStr ++ to_suf)

/-- Spec-side: the replacement text interleaved before every character of
the document and once at its end — the result Python's `str.replace`
produces for an empty pattern with an unlimited count. -/
def interleaveSpec (rep : List Char) : List Char → List Char
  | [] => rep
  | c :: rest => rep ++ c :: interleaveSpec rep rest

/-! ### Helper lemmas about the stable sort -/

theorem insertDetail_length (d : Detail) (l : List Detail) :
    (insertDetail d l).length = l.length + 1 := by
  induction l with
  | nil => rfl
  | cons e rest ih =>
    by_cases h : d.instances ≤ e.instances
    · simp [insertDetail, h]
    · simp [insertDetail, h, ih]

theorem mem_insertDetail {x d : Detail} {l : List Detail}
    (h : x ∈ insertDetail d l) : x = d ∨ x ∈ l := by
  induction l with
  | nil =>
    simp [insertDetail] at h
    exact Or.inl h
  | cons e rest ih =>
    by_cases hc : d.instances ≤ e.instances
    · rw [insertDetail, if_pos hc] at h
      rcases List.mem_cons.mp h with h1 | h1
      · exact Or.inl h1
      · exact Or.inr h1
    · rw [insertDetail, if_neg hc] at h
      rcases List.mem_cons.mp h with h1 | h1
      · exact Or.inr (by simp [h1])
      · rcases ih h1 with h2 | h2
        · exact Or.inl h2
        · exact Or.inr (List.mem_cons_of_mem _ h2)

theorem pairwise_insertDetail {d : Detail} {l : List Detail}
    (h : List.Pairwise (fun a b => a.instances ≤ b.instances) l) :
    List.Pairwise (fun a b => a.instances ≤ b.instances) (insertDetail d l) := by
  induction l with
  | nil => simp [insertDetail]
  | cons e rest ih =>
    rcases List.pairwise_cons.mp h with ⟨he, hrest⟩
    by_cases hc : d.instances ≤ e.instances
    · rw [insertDetail, if_pos hc]
      refine List.pairwise_cons.mpr ⟨?_, h⟩
      intro x hx
      rcases List.mem_cons.mp hx with rfl | hx
      · exact hc
      · exact le_trans hc (he x hx)
    · rw [insertDetail, if_neg hc]
      refine List.pairwise_cons.mpr ⟨?_, ih hrest⟩
      intro x hx
      rcases mem_insertDetail hx with rfl | hx
      · exact le_of_not_le hc
      · exact he x hx

theorem sortDetails_pairwise (l : List Detail) :
    List.Pairwise (fun a b => a.instances ≤ b.instances) (sortDetails l) := by
  induction l with
  | nil => simp [sortDetails]
  | cons d rest ih => exact pairwise_insertDetail ih

theorem filter_insertDetail (d : Detail) (l : List Detail) (k : Nat) :
    (insertDetail d l).filter (fun e => e.instances == k) =
      if d.instances == k then d :: l.filter (fun e => e.instances == k)
      else l.filter (fun e => e.instances == k) := by
  induction l with
  | nil => by_cases h : d.instances == k <;> simp [insertDetail, h]
  | cons e rest ih =>
    by_cases hc : d.instances ≤ e.instances
    · rw [insertDetail, if_pos hc]
      by_cases h : d.instances == k <;> simp [List.filter_cons, h]
    · rw [insertDetail, if_neg hc]
      by_cases hd : d.instances == k
      · have hlt : e.instances < d.instances := Nat.lt_of_not_le hc
        have hdk : d.instances = k := beq_iff_eq.mp hd
        have hek : (e.instances == k) = false := by
          simp only [beq_eq_false_iff_ne, ne_eq]
          omega
        simp [List.filter_cons, hek, ih, hd]
      · simp [List.filter_cons, ih, hd]

theorem sortDetails_filter (l : List Detail) (k : Nat) :
    (sortDetails l).filter (fun e => e.instances == k) =
      l.filter (fun e => e.instances == k) := by
  induction l with
  | nil => rfl
  | cons d rest ih =>
    rw [sortDetails, filter_insertDetail, ih]
    by_cases hd : d.instances == k <;> simp [List.filter_cons, hd]

theorem sortDetails_length (l : List Detail) : (sortDetails l).length = l.length := by
  induction l with
  | nil => rfl
  | cons d rest ih =>
    rw [sortDetails, insertDetail_length, ih]
    rfl

theorem insertDetail_sum (d : Detail) (l : List Detail) :
    ((insertDetail d l).map (fun e => e.instances)).sum =
      d.instances + (l.map (fun e => e.instances)).sum := by
  induction l with
  | nil => simp [insertDetail]
  | cons e rest ih =>
    by_cases hc : d.instances ≤ e.instances
    · simp [insertDetail, hc]
    · simp [insertDetail, hc, ih]
      omega

theorem sortDetails_sum (l : List Detail) :
    ((sortDetails l).map (fun e => e.instances)).sum =
      (l.map (fun e => e.instances)).sum := by
  induction l with
  | nil => rfl
  | cons d rest ih =>
    rw [sortDetails, insertDetail_sum, ih]
    simp

theorem mem_sortDetails {x : Detail} {l : List Detail}
    (h : x ∈ sortDetails l) : x ∈ l := by
  induction l with
  | nil => simp [sortDetails] at h
  | cons d rest ih =>
    rw [sortDetails] at h
    rcases mem_insertDetail h with h1 | h1
    · simp [h1]
    · exact List.mem_cons_of_mem _ (ih h1)

theorem countP_pos_add_countP_zero (l : List Detail) :
    l.countP (fun d => decide (0 < d.instances)) +
      l.countP (fun d => d.instances == 0) = l.length := by
  induction l with
  | nil => rfl
  | cons d rest ih =>
    by_cases h : 0 < d.instances
    · have h2 : (d.instances == 0) = false := by
        simp only [beq_eq_false_iff_ne, ne_eq]
        omega
      simp [List.countP_cons, h, h2, ← ih]
      omega
    · have h0 : d.instances = 0 := by omega
      simp [List.countP_cons, h, h0, ← ih]
      omega

/-! ### Helper lemmas about the replacement loop -/

theorem replaceLoop_fst (sp ss : String) (pairs : List (String × String)) :
    ∀ text, (replaceLoop sp ss text pairs).1 = specFinalDoc sp ss text pairs := by
  induction pairs with
  | nil => intro text; rfl
  | cons pr rest ih =>
    intro text
    obtain ⟨f, t⟩ := pr
    simp only [replaceLoop, specFinalDoc]
    rw [ih]
    rfl

theorem replaceLoop_records (sp ss : String) (pairs : List (String × String)) :
    ∀ text, (replaceLoop sp ss text pairs).2.2 = specRecords sp ss text pairs := by
  induction pairs with
  | nil => intro text; rfl
  | cons pr rest ih =>
    intro text
    obtain ⟨f, t⟩ := pr
    simp only [replaceLoop, specRecords]
    rw [ih]
    rfl

theorem specRecords_length (sp ss : String) (pairs : List (String × String)) :
    ∀ text, (specRecords sp ss text pairs).length = pairs.length := by
  induction pairs with
  | nil => intro text; rfl
  | cons pr rest ih =>
    intro text
    simp only [specRecords, List.length_cons, ih]

theorem replaceLoop_count (sp ss : String) (pairs : List (String × String)) :
    ∀ text, (replaceLoop sp ss text pairs).2.1 =
      ((replaceLoop sp ss text pairs).2.2.map (fun d => d.instances)).sum := by
  induction pairs with
  | nil => intro text; rfl
  | cons pr rest ih =>
    intro text
    obtain ⟨f, t⟩ := pr
    simp only [replaceLoop, List.map_cons, List.sum_cons]
    rw [← ih]
    by_cases h : 0 < pyCount text (sp ++ f ++ ss)
    · simp [h]
    · have h0 : pyCount text (sp ++ f ++ ss) = 0 := by omega
      simp [h, h0]

theorem replaceLoop_no_matches (sp ss : String) (pairs : List (String × String)) :
    ∀ doc, (∀ pr ∈ pairs, pyCount doc (sp ++ pr.1 ++ ss) = 0) →
      replaceLoop sp ss doc pairs =
        (doc, 0, pairs.map (fun pr =>
          ⟨pr.1, sp ++ pr.1 ++ ss, pr.2, sp ++ pr.2 ++ ss, 0⟩)) := by
  induction pairs with
  | nil => intro doc _; rfl
  | cons pr rest ih =>
    intro doc h
    obtain ⟨f, t⟩ := pr
    have h0 : pyCount doc (sp ++ f ++ ss) = 0 := h (f, t) (List.mem_cons_self _ _)
    have hrest : ∀ pr ∈ rest, pyCount doc (sp ++ pr.1 ++ ss) = 0 :=
      fun pr hm => h pr (List.mem_cons_of_mem _ hm)
    simp only [replaceLoop, h0, List.map_cons, if_neg (Nat.lt_irrefl 0)]
    rw [ih doc hrest]
    rfl

/-! ### Helper lemma for the empty search pattern -/

theorem pyReplaceAux_nil (rep : List Char) :
    ∀ (hay : List Char) (fuel n : Nat), hay.length < fuel → hay.length < n →
      pyReplaceAux [] rep fuel n hay = interleaveSpec rep hay := by
  intro hay
  induction hay with
  | nil =>
    intro fuel n hf hn
    obtain ⟨f, rfl⟩ : ∃ f, fuel = f + 1 := ⟨fuel - 1, by omega⟩
    obtain ⟨m, rfl⟩ : ∃ m, n = m + 1 := ⟨n - 1, by omega⟩
    rfl
  | cons c rest ih =>
    intro fuel n hf hn
    obtain ⟨f, rfl⟩ : ∃ f, fuel = f + 1 := ⟨fuel - 1, by omega⟩
    obtain ⟨m, rfl⟩ : ∃ m, n = m + 1 := ⟨n - 1, by omega⟩
    simp only [pyReplaceAux, interleaveSpec, if_true]
    rw [ih f m (by simp only [List.length_cons] at hf; omega)
        (by simp only [List.length_cons] at hn; omega)]

/-! ### Claim theorems -/

/-- Claim C1: for every document, every pair of term lists, and every scope
prefix/suffix, the engine processes paired terms strictly in list order; for
each index it builds the full search string `scopePrefix + searchTerm +
scopeSuffix` and the full replacement string `scopePrefix + replacementTerm +
scopeSuffix`, sets `instances` to the number of non-overlapping occurrences
of the full search string in the current (possibly already-rewritten)
document, replaces all non-overlapping occurrences with the full replacement
when `instances > 0`, leaves the document unchanged for that term when
`instances == 0`, and emits one replacement record for the term either way,
carrying the original term, the full search string, the replacement term,
the full replacement string, and `instances`: the embedded loop refines the
step-by-step specification `specStepDoc`/`specRecord`, one record per pair,
and the engine returns the final document with the sorted record list. -/
theorem engine_processes_terms_in_order (text : String) (fl tl : List String)
    (sp ss : String) :
    (replaceLoop sp ss text (fl.zip tl)).1 = specFinalDoc sp ss text (fl.zip tl) ∧
    (replaceLoop sp ss text (fl.zip tl)).2.2 = specRecords sp ss text (fl.zip tl) ∧
    (specRecords sp ss text (fl.zip tl)).length = (fl.zip tl).length ∧
    (replace_strings text fl tl sp ss).1 = specFinalDoc sp ss text (fl.zip tl) ∧
    (replace_strings text fl tl sp ss).2.2 =
      sortDetails (specRecords sp ss text (fl.zip tl)) := by
  refine ⟨replaceLoop_fst sp ss _ text, replaceLoop_records sp ss _ text,
    specRecords_length sp ss _ text, ?_, ?_⟩
  · show (replaceLoop sp ss text (fl.zip tl)).1 = _
    exact replaceLoop_fst sp ss _ text
  · show sortDetails ((replaceLoop sp ss text (fl.zip tl)).2.2) = _
    rw [replaceLoop_records]

/-- Claim C2: later terms are matched against the document state after
earlier replacements have been applied — with search terms ["a", "b"],
replacement terms ["b", "c"] and document "a", the first term rewrites the
document to "b", the second term then matches that intermediate output, and
the final document is "c". -/
theorem sequential_hazard_scenario :
    specStepDoc "" "" "a" ("a", "b") = "b" ∧
    specStepDoc "" "" "b" ("b", "c") = "c" ∧
    replace_strings "a" ["a", "b"] ["b", "c"] "" "" =
      ("c", ⟨2, 2, 0, 2, 0⟩,
       [⟨"a", "a", "b", "b", 1⟩, ⟨"b", "b", "c", "c", 1⟩]) := by
  decide

/-- Claim C3: the engine pairs entries only up to the shorter list's length,
so the searched count equals the record count equals
`min (length searchTerms) (length replacementTerms)`; a one-term search list
with an empty replacement list — and likewise an empty search list — yields
zero records and an all-zero summary, without any failure. -/
theorem pairing_truncates_to_shorter :
    (∀ (text : String) (fl tl : List String) (sp ss : String),
      (replace_strings text fl tl sp ss).2.1.searched =
        (replace_strings text fl tl sp ss).2.2.length ∧
      (replace_strings text fl tl sp ss).2.2.length = min fl.length tl.length) ∧
    replace_strings "anything" ["x"] [] "" "" =
      ("anything", ⟨0, 0, 0, 0, 0⟩, []) ∧
    replace_strings "anything" [] ["y"] "" "" =
      ("anything", ⟨0, 0, 0, 0, 0⟩, []) := by
  refine ⟨?_, by decide, by decide⟩
  intro text fl tl sp ss
  have hlen : (replace_strings text fl tl sp ss).2.2.length = (fl.zip tl).length := by
    show (sortDetails ((replaceLoop sp ss text (fl.zip tl)).2.2)).length = _
    rw [sortDetails_length, replaceLoop_records, specRecords_length]
  constructor
  · show (fl.zip tl).length = _
    rw [hlen]
  · rw [hlen]
    exact List.length_zip fl tl

/-- Claim C4: in every run, searched equals the number of records, found
equals the number of records with positive instances, not-found the number
with zero instances (so found + not-found = searched), total replaced equals
the sum of instances over all records, and the multiple-instance count
equals the number of records with more than one instance. -/
theorem summary_aggregates_records (text : String) (fl tl : List String)
    (sp ss : String) :
    (replace_strings text fl tl sp ss).2.1.searched =
      (replace_strings text fl tl sp ss).2.2.length ∧
    (replace_strings text fl tl sp ss).2.1.found =
      ((replace_strings text fl tl sp ss).2.2.filter
        (fun d => decide (0 < d.instances))).length ∧
    (replace_strings text fl tl sp ss).2.1.not_found =
      ((replace_strings text fl tl sp ss).2.2.filter
        (fun d => d.instances == 0)).length ∧
    (replace_strings text fl tl sp ss).2.1.found +
        (replace_strings text fl tl sp ss).2.1.not_found =
      (replace_strings text fl tl sp ss).2.1.searched ∧
    (replace_strings text fl tl sp ss).2.1.total_replaced =
      ((replace_strings text fl tl sp ss).2.2.map (fun d => d.instances)).sum ∧
    (replace_strings text fl tl sp ss).2.1.multiple_instances =
      ((replace_strings text fl tl sp ss).2.2.filter
        (fun d => decide (1 < d.instances))).length := by
  refine ⟨?_, ?_, ?_, ?_, ?_, ?_⟩
  · show (fl.zip tl).length = (sortDetails ((replaceLoop sp ss text (fl.zip tl)).2.2)).length
    rw [sortDetails_length, replaceLoop_records, specRecords_length]
  · show List.countP _ _ = _
    rw [List.countP_eq_length_filter]
    rfl
  · show List.countP _ _ = _
    rw [List.countP_eq_length_filter]
    rfl
  · show List.countP _ _ + List.countP _ _ = (fl.zip tl).length
    rw [countP_pos_add_countP_zero, sortDetails_length, replaceLoop_records,
      specRecords_length]
  · show (replaceLoop sp ss text (fl.zip tl)).2.1 = _
    have hrs : (replace_strings text fl tl sp ss).2.2 =
        sortDetails ((replaceLoop sp ss text (fl.zip tl)).2.2) := rfl
    rw [hrs, sortDetails_sum]
    exact replaceLoop_count sp ss _ text
  · show List.countP _ _ = _
    rw [List.countP_eq_length_filter]
    rfl

/-- Claim C5: the returned record sequence is sorted ascending by instance
count; the sort is stable — records with equal instance counts keep the
relative order in which the loop emitted them (the search-term order, here
expressed by filtering both the returned and the pre-sort record list to any
fixed instance count) — and the sort happens after all document mutation:
the returned document is exactly the loop's document, independent of the
sorting. -/
theorem records_sorted_stable_presentational (text : String) (fl tl : List String)
    (sp ss : String) :
    List.Pairwise (fun a b => a.instances ≤ b.instances)
      (replace_strings text fl tl sp ss).2.2 ∧
    (∀ k, (replace_strings text fl tl sp ss).2.2.filter
        (fun d => d.instances == k) =
      ((replaceLoop sp ss text (fl.zip tl)).2.2).filter
        (fun d => d.instances == k)) ∧
    (replace_strings text fl tl sp ss).1 = (replaceLoop sp ss text (fl.zip tl)).1 := by
  refine ⟨?_, ?_, rfl⟩
  · show List.Pairwise _ (sortDetails _)
    exact sortDetails_pairwise _
  · intro k
    show (sortDetails _).filter _ = _
    rw [sortDetails_filter]

/-- Claim C6 counterexample: with the single search term "a" (all pairwise
disjointness preconditions hold vacuously), replacement "bb", empty scope
affixes and document "bab", exactly one occurrence of the full search string
is removed but two occurrences of the full replacement string appear in the
output (the inserted copies combine with adjacent characters), so the
claimed occurrence balance fails. -/
theorem occurrence_balance_counterexample :
    (replace_strings "bab" ["a"] ["bb"] "" "").1 = "bbbb" ∧
    pyCount "bab" "a" - pyCount "bbbb" "a" = 1 ∧
    pyCount "bbbb" "bb" - pyCount "bab" "bb" = 2 ∧
    ¬(pyCount "bab" "a" - pyCount "bbbb" "a" =
      pyCount "bbbb" "bb" - pyCount "bab" "bb") := by
  decide

/-- Claim C6 amended: if the document contains no occurrence of any term's
full search string, the engine returns the document unchanged, reports zero
instances for every record and a zero replaced total — in particular,
running the engine a second time on an output that is free of every full
search pattern is a no-op. -/
theorem engine_fixed_point_when_no_matches (doc : String) (fl tl : List String)
    (sp ss : String)
    (h : ∀ pr ∈ fl.zip tl, pyCount doc (sp ++ pr.1 ++ ss) = 0) :
    (replace_strings doc fl tl sp ss).1 = doc ∧
    (∀ d ∈ (replace_strings doc fl tl sp ss).2.2, d.instances = 0) ∧
    (replace_strings doc fl tl sp ss).2.1.total_replaced = 0 := by
  have key := replaceLoop_no_matches sp ss (fl.zip tl) doc h
  refine ⟨?_, ?_, ?_⟩
  · show (replaceLoop sp ss doc (fl.zip tl)).1 = doc
    rw [key]
  · intro d hd
    have hrs : (replace_strings doc fl tl sp ss).2.2 =
        sortDetails ((replaceLoop sp ss doc (fl.zip tl)).2.2) := rfl
    rw [hrs] at hd
    have hd2 := mem_sortDetails hd
    rw [key] at hd2
    simp only [List.mem_map] at hd2
    obtain ⟨pr, _, rfl⟩ := hd2
    rfl
  · show (replaceLoop sp ss doc (fl.zip tl)).2.1 = 0
    rw [key]

/-- Witness for the amended C6 theorem: document "zz" contains no occurrence
of the sole full search string "a", and the engine run is a no-op with zero
instances. -/
theorem engine_fixed_point_witness :
    (∀ pr ∈ (["a"] : List String).zip ["b"], pyCount "zz" ("" ++ pr.1 ++ "") = 0) ∧
    ((replace_strings "zz" ["a"] ["b"] "" "").1 = "zz" ∧
     (∀ d ∈ (replace_strings "zz" ["a"] ["b"] "" "").2.2, d.instances = 0) ∧
     (replace_strings "zz" ["a"] ["b"] "" "").2.1.total_replaced = 0) :=
  ⟨by decide, engine_fixed_point_when_no_matches "zz" ["a"] ["b"] "" "" (by decide)⟩

/-- Claim C7: scope affixes bound matching — with the double quote as both
scope prefix and scope suffix, only the quoted occurrence of "word1" is
replaced; the quoted "word10" is untouched because its quoted form never
matches the full search string bounded by the suffix quote, which still
occurs exactly once in the output while the bounded "word1" no longer
occurs. -/
theorem scope_affixes_bound_matching :
    replace_strings "see \"word1\" and \"word10\" end"
        ["word1", "word2", "word3"] ["new_word1", "new_word2", "new_word3"]
        "\"" "\"" =
      ("see \"new_word1\" and \"word10\" end",
       ⟨3, 1, 2, 1, 0⟩,
       [⟨"word2", "\"word2\"", "new_word2", "\"new_word2\"", 0⟩,
        ⟨"word3", "\"word3\"", "new_word3", "\"new_word3\"", 0⟩,
        ⟨"word1", "\"word1\"", "new_word1", "\"new_word1\"", 1⟩]) ∧
    pyCount "see \"new_word1\" and \"word10\" end" "\"word10\"" = 1 ∧
    pyCount "see \"new_word1\" and \"word10\" end" "\"word1\"" = 0 := by
  decide

/-- Claim C8: the replacement plan builder takes the secondary 'to' list as
base when the chosen method includes the list variant and the search list
otherwise, builds every final entry as prefix + entry + suffix with the
affixes defaulting to the empty string when not selected, and with empty
prefix and suffix the replacement list equals the base list
element-for-element. -/
theorem replacement_plan_builder_spec :
    (∀ (m : ReplaceMethod) (fl tl : List String) (p1 s1 : String),
      buildReplacementList m fl tl p1 s1 =
        (if methodHasL m then tl else fl).map
          (fun e => (if methodHasP m then p1 else "") ++ e ++
            (if methodHasS m then s1 else ""))) ∧
    (∀ (m : ReplaceMethod) (fl tl : List String),
      buildReplacementList m fl tl "" "" = (if methodHasL m then tl else fl)) := by
  constructor
  · intro m fl tl p1 s1
    rfl
  · intro m fl tl
    show (if methodHasL m then tl else fl).map
        (fun e => (if methodHasP m then "" else "") ++ e ++
          (if methodHasS m then "" else "")) = _
    simp only [ite_self, String.empty_append, String.append_empty]
    exact List.map_id _

/-- Claim C9: the engine is total over well-typed string inputs even when
the uniqueness precondition is violated: for every input — duplicate search
terms, mismatched lengths, empty lists — it returns a document, a coherent
summary and a record list; in particular a run with the duplicated search
term "a" completes normally, the second copy simply finding nothing. -/
theorem engine_total_on_malformed_inputs :
    (∀ (text : String) (fl tl : List String) (sp ss : String),
      ∃ doc sm recs, replace_strings text fl tl sp ss = (doc, sm, recs) ∧
        recs.length = (fl.zip tl).length ∧
        sm.found + sm.not_found = sm.searched) ∧
    replace_strings "aa" ["a", "a"] ["b", "c"] "" "" =
      ("bb", ⟨2, 1, 1, 2, 1⟩,
       [⟨"a", "a", "c", "c", 0⟩, ⟨"a", "a", "b", "b", 2⟩]) := by
  refine ⟨?_, by decide⟩
  intro text fl tl sp ss
  refine ⟨_, _, _, rfl, ?_, ?_⟩
  · show (sortDetails ((replaceLoop sp ss text (fl.zip tl)).2.2)).length = _
    rw [sortDetails_length, replaceLoop_records, specRecords_length]
  · show List.countP _ _ + List.countP _ _ = (fl.zip tl).length
    rw [countP_pos_add_countP_zero, sortDetails_length, replaceLoop_records,
      specRecords_length]

/-- Claim C10: when the search term and both scope affixes are all the empty
string, the full search string is empty, so for every document the engine
reports `instances = length document + 1`, counts the term as found, and
returns the original document with the full replacement inserted before
every character and once at the end. -/
theorem empty_search_term_behavior (doc rep : String) :
    (replace_strings doc [""] [rep] "" "").1 = ⟨interleaveSpec rep.data doc.data⟩ ∧
    (replace_strings doc [""] [rep] "" "").2.1.found = 1 ∧
    (replace_strings doc [""] [rep] "" "").2.2 =
      [⟨"", "", rep, rep, doc.data.length + 1⟩] := by
  have hfs : ("" ++ "" ++ "" : String) = "" := by
    rw [String.append_empty, String.append_empty]
  have hft : ("" ++ rep ++ "" : String) = rep := by
    rw [String.append_empty, String.empty_append]
  have hcount : pyCount doc "" = doc.data.length + 1 := by
    simp [pyCount]
  have hrep : pyReplace doc "" rep (doc.data.length + 1) =
      ⟨interleaveSpec rep.data doc.data⟩ := by
    show (⟨pyReplaceAux ("" : String).data rep.data (doc.data.length + 1)
        (doc.data.length + 1) doc.data⟩ : String) = _
    have hd : ("" : String).data = [] := rfl
    rw [hd, pyReplaceAux_nil rep.data doc.data _ _ (Nat.lt_succ_self _) (Nat.lt_succ_self _)]
  have hloop : replaceLoop "" "" doc [("", rep)] =
      (⟨interleaveSpec rep.data doc.data⟩, doc.data.length + 1,
       [⟨"", "", rep, rep, doc.data.length + 1⟩]) := by
    simp only [replaceLoop, hfs, hft, hcount]
    rw [if_pos (Nat.succ_pos _), if_pos (Nat.succ_pos _), hrep]
  have hzip : List.zip [""] [rep] = [(("" : String), rep)] := rfl
  refine ⟨?_, ?_, ?_⟩
  · show (replaceLoop "" "" doc (List.zip [""] [rep])).1 = _
    rw [hzip, hloop]
  · show List.countP (fun d => decide (0 < d.instances))
        (sortDetails ((replaceLoop "" "" doc (List.zip [""] [rep])).2.2)) = 1
    rw [hzip, hloop]
    simp [sortDetails, insertDetail, List.countP_cons]
  · show sortDetails ((replaceLoop "" "" doc (List.zip [""] [rep])).2.2) = _
    rw [hzip, hloop]
    rfl

